import Mathlib

/-!
Verification development for the Beaucharme e-commerce repository
(cart store, filter/sort pipeline, and shared validation helpers).

The definitions below are shallow embeddings of the TypeScript source:
  - `src/utils/validation.ts`  (sanitizeSearchQuery, validatePriceRange,
    isValidId, isValidCartItem, parseAndValidateCart)
  - `src/actions/cart.ts`      (addToCart, removeFromCart, updateQuantity,
    clearCart, getCartTotals) and the identical logic in
    `src/contexts/CartContext.tsx` (addItem, removeItem, updateQuantity,
    clearCart, getTotals)
  - `src/stores/cartStore.ts`  (the validated revision: loadFromStorage
    with re-persist of the cleaned collection)
  - `src/stores/filterStore.ts` (FilterState, hasActiveFilters, resetFilters)
  - `src/components/FilteredProductGrid.tsx` (filteredProducts pipeline)

Modelling conventions:
  - JavaScript numbers used as prices are modelled as rationals (ℚ);
    quantities are modelled as integers (ℤ).  Where the source checks
    `Number.isFinite` / `Number.isInteger` on untrusted JSON input, JS
    numbers are modelled by the inductive `JSNum` (finite rational, NaN,
    or an infinity).
  - JavaScript strings are modelled as Lean `String` (a list of
    characters); `slice`, `trim`, `toLowerCase`, `includes` are modelled
    by the corresponding list operations.  Locale-aware string
    comparison (`localeCompare('fr')`) is approximated by code-point
    order; every theorem proved here is insensitive to the comparator.
  - The persisted blob in localStorage is modelled by `Blob`: absent
    (missing key or empty string), malformed (JSON.parse throws), or a
    parsed JSON value.  `JSON.stringify` followed by `JSON.parse` is the
    identity at the JSON-value level.
-/

namespace Beaucharme

/-! ## JavaScript string primitives -/

/-- Character class of the regex `/[<>"'`]/` in `sanitizeSearchQuery`
(the quote, apostrophe and backtick are written by code point). -/
def dangerousChar (c : Char) : Bool :=
  c == '<' || c == '>' || c == Char.ofNat 34 || c == Char.ofNat 39 || c == Char.ofNat 96

/-- Whitespace as trimmed by `String.prototype.trim` (ASCII part). -/
def jsWs (c : Char) : Bool :=
  c == ' ' || c == Char.ofNat 9 || c == Char.ofNat 10 || c == Char.ofNat 13 || c == Char.ofNat 12 || c == Char.ofNat 11

/-- Drop characters up to and including the first `>` ; `none` when no `>`
occurs.  This is the tail of a match of the regex `/<[^>]*>/`. -/
def dropThroughGt : List Char → Option (List Char)
  | [] => none
  | c :: rest => if c == '>' then some rest else dropThroughGt rest

theorem dropThroughGt_length : ∀ (l r : List Char), dropThroughGt l = some r → r.length < l.length := by
  intro l
  induction l with
  | nil => intro r h; simp [dropThroughGt] at h
  | cons c rest ih =>
    intro r h
    simp only [dropThroughGt] at h
    by_cases hc : (c == '>') = true
    · simp [hc] at h
      subst h
      simp [List.length_cons, Nat.lt_succ_self]
    · simp [hc] at h
      exact Nat.lt_trans (ih r h) (Nat.lt_succ_self _)

/-- Fuel-driven worker for `removeTags`; with fuel at least the length of
the input it computes the global replacement of `/<[^>]*>/` by the empty
string. -/
def removeTagsFuel : Nat → List Char → List Char
  | 0, l => l
  | _ + 1, [] => []
  | fuel + 1, c :: rest =>
    if c == '<' then
      match dropThroughGt rest with
      | some rest2 => removeTagsFuel fuel rest2
      | none => c :: removeTagsFuel fuel rest
    else
      c :: removeTagsFuel fuel rest

/-- Replacement of every match of `/<[^>]*>/g` by the empty string
(the first step of `sanitizeSearchQuery`). -/
def removeTags (l : List Char) : List Char := removeTagsFuel l.length l

/-- Replacement of every match of `/[<>"'`]/g` by the empty string
(the second step of `sanitizeSearchQuery`). -/
def removeDangerous (l : List Char) : List Char := l.filter (fun c => !dangerousChar c)

/-- The `trim()` of a character list: whitespace stripped from both ends. -/
def jsTrimL (l : List Char) : List Char :=
  ((l.dropWhile jsWs).reverse.dropWhile jsWs).reverse

/-- Lowercasing as in `toLowerCase()` (ASCII approximation). -/
def jsToLower (s : String) : String := ⟨s.data.map Char.toLower⟩

/-- Prefix test on character lists. -/
def isPre : List Char → List Char → Bool
  | [], _ => true
  | _ :: _, [] => false
  | a :: as, b :: bs => a == b && isPre as bs

/-- Substring test: `hay.includes(needle)` of JavaScript. -/
def listInfix (needle : List Char) : List Char → Bool
  | [] => needle.isEmpty
  | c :: rest => isPre needle (c :: rest) || listInfix needle rest

/-- JavaScript `hay.includes(needle)` on strings. -/
def containsSubstr (hay needle : String) : Bool := listInfix needle.data hay.data

/-! ## Validation utilities (`src/utils/validation.ts`) -/

/-- Maximum allowed length for search queries (`MAX_SEARCH_LENGTH`). -/
def maxSearchLength : Nat := 100

/-- Maximum allowed length for product and cart item names (`MAX_NAME_LENGTH`). -/
def maxNameLength : Nat := 200

/-- Maximum quantity per cart item (`MAX_QUANTITY`). -/
def maxQuantity : Int := 99

/-- Character class of `VALID_ID_PATTERN = /^[a-z0-9-]+$/`. -/
def validIdChar (c : Char) : Bool :=
  (decide ('a' ≤ c) && decide (c ≤ 'z')) || (decide ('0' ≤ c) && decide (c ≤ '9')) || c == '-'

/-- The `isValidId` check on an actual string: nonempty and matching
`/^[a-z0-9-]+$/`. -/
def isValidIdStr (s : String) : Bool :=
  !s.data.isEmpty && s.data.all validIdChar

/-- The `sanitizeSearchQuery` function of `src/utils/validation.ts`:
strip HTML-tag-like substrings, strip markup-significant characters,
trim, truncate to `MAX_SEARCH_LENGTH`.  A `none` input models a
non-string argument (`typeof query !== 'string'`). -/
def sanitizeSearchQuery : Option String → String
  | none => ""
  | some s => ⟨(jsTrimL (removeDangerous (removeTags s.data))).take maxSearchLength⟩

/-- A JavaScript number: a finite rational, NaN, or an infinity. -/
inductive JSNum where
  | fin (q : ℚ)
  | nan
  | inf
  | negInf
deriving DecidableEq

/-- The `Number.isFinite` fallback used by `validatePriceRange`:
a finite number is kept, anything else is replaced by the default. -/
def safeNum (n : JSNum) (dflt : ℚ) : ℚ :=
  match n with
  | JSNum.fin q => q
  | _ => dflt

/-- The `validatePriceRange` function of `src/utils/validation.ts`.
Non-finite bounds fall back to the absolute bounds; each bound is then
clamped and an inverted range collapses to a single point. -/
def validatePriceRange (min max : JSNum) (absoluteMin absoluteMax : ℚ) : ℚ × ℚ :=
  let safeMin := safeNum min absoluteMin
  let safeMax := safeNum max absoluteMax
  let clampedMin := Max.max absoluteMin (Min.min safeMin absoluteMax)
  let clampedMax := Min.min absoluteMax (Max.max safeMax absoluteMin)
  if clampedMin > clampedMax then (clampedMin, clampedMin) else (clampedMin, clampedMax)

/-! ## JSON values and the persisted cart blob -/

/-- A parsed JSON value (the result of a successful `JSON.parse`). -/
inductive JsonValue where
  | null
  | bool (b : Bool)
  | num (n : JSNum)
  | str (s : String)
  | arr (xs : List JsonValue)
  | obj (fields : List (String × JsonValue))

/-- Property access `obj.key` on a JSON object (last duplicate wins, as
in `JSON.parse`); `none` models `undefined`. -/
def lookupField (fields : List (String × JsonValue)) (key : String) : Option JsonValue :=
  (fields.reverse.find? (fun f => f.1 == key)).map (fun f => f.2)

/-- The `isValidId` check as applied to a JSON field (non-strings fail). -/
def idOk : Option JsonValue → Bool
  | some (JsonValue.str s) => isValidIdStr s
  | _ => false

/-- Name field check: a nonempty string of at most `MAX_NAME_LENGTH` characters. -/
def nameOk : Option JsonValue → Bool
  | some (JsonValue.str s) => decide (0 < s.data.length) && decide (s.data.length ≤ maxNameLength)
  | _ => false

/-- Price field check: a finite, non-negative number. -/
def priceOk : Option JsonValue → Bool
  | some (JsonValue.num (JSNum.fin q)) => decide (0 ≤ q)
  | _ => false

/-- Image field check: any string. -/
def imageOk : Option JsonValue → Bool
  | some (JsonValue.str _) => true
  | _ => false

/-- Quantity field check: an integer with `0 < q ≤ MAX_QUANTITY`. -/
def quantityOk : Option JsonValue → Bool
  | some (JsonValue.num (JSNum.fin q)) => decide (q.den = 1) && decide (0 < q) && decide (q ≤ (maxQuantity : ℚ))
  | _ => false

/-- The `isValidCartItem` function of `src/utils/validation.ts`:
all five fields present with the required shapes. -/
def isValidCartItem : JsonValue → Bool
  | JsonValue.obj fields =>
    idOk (lookupField fields "id") &&
    nameOk (lookupField fields "name") &&
    priceOk (lookupField fields "price") &&
    imageOk (lookupField fields "image") &&
    quantityOk (lookupField fields "quantity")
  | _ => false

/-- The persisted localStorage blob under the cart key: absent (missing
key or empty string, both falsy), malformed (JSON.parse throws), or a
parsed JSON value. -/
inductive Blob where
  | absent
  | malformed
  | val (j : JsonValue)

/-- The `parseAndValidateCart` function of `src/utils/validation.ts`:
absent and malformed blobs and non-array values give the empty cart;
an array is filtered elementwise by `isValidCartItem`. -/
def parseAndValidateCart : Blob → List JsonValue
  | Blob.absent => []
  | Blob.malformed => []
  | Blob.val (JsonValue.arr xs) => xs.filter isValidCartItem
  | Blob.val _ => []

/-- The `loadFromStorage` function of the validated cart store revision
(`src/stores/cartStore.ts`), returning the loaded items together with
the storage content afterwards: a malformed blob is cleared; when the
blob is an array from which validation dropped elements, the cleaned
collection is immediately re-persisted; otherwise storage is unchanged. -/
def loadFromStorage : Blob → List JsonValue × Blob
  | Blob.absent => ([], Blob.absent)
  | Blob.malformed => ([], Blob.absent)
  | Blob.val j =>
    let validated := parseAndValidateCart (Blob.val j)
    match j with
    | JsonValue.arr xs =>
      if validated.length = xs.length then (validated, Blob.val (JsonValue.arr xs))
      else (validated, Blob.val (JsonValue.arr validated))
    | _ => (validated, Blob.val j)

/-! ## The cart (`src/actions/cart.ts`, `src/contexts/CartContext.tsx`) -/

/-- A line item of the cart (`CartItem`): product snapshot plus quantity. -/
structure CartItem where
  id : String
  name : String
  price : ℚ
  image : String
  quantity : Int
deriving DecidableEq

/-- The product data needed to add to cart (`AddToCartProduct` / the
`Product` interface of `src/actions/cart.ts`). -/
structure AddToCartProduct where
  id : String
  name : String
  price : ℚ
  image : String
deriving DecidableEq

/-- The `addToCart` action of `src/actions/cart.ts` (identical logic in
`addItem` of `src/contexts/CartContext.tsx` and of the cart stores):
when a line item with the product's id exists, every matching line item
has its quantity incremented by 1; otherwise a fresh line item with
quantity 1 is appended. -/
def addToCart (product : AddToCartProduct) (currentCart : List CartItem) : List CartItem :=
  match currentCart.find? (fun item => item.id == product.id) with
  | some _ =>
    currentCart.map (fun item =>
      if item.id == product.id then { item with quantity := item.quantity + 1 } else item)
  | none =>
    currentCart ++ [{ id := product.id, name := product.name, price := product.price,
                      image := product.image, quantity := 1 }]

/-- The `removeFromCart` action: drop every line item with the given id. -/
def removeFromCart (productId : String) (currentCart : List CartItem) : List CartItem :=
  currentCart.filter (fun item => !(item.id == productId))

/-- The `updateQuantity` action: a non-positive quantity removes the line
item; a positive quantity overwrites the quantity of every matching
line item; an absent id leaves the cart unchanged. -/
def updateQuantity (productId : String) (quantity : Int) (currentCart : List CartItem) : List CartItem :=
  if quantity ≤ 0 then
    currentCart.filter (fun item => !(item.id == productId))
  else
    currentCart.map (fun item =>
      if item.id == productId then { item with quantity := quantity } else item)

/-- The `clearCart` action: the empty cart. -/
def clearCart : List CartItem := []

/-- Derived cart totals (`CartTotals`). -/
structure CartTotals where
  subtotal : ℚ
  shipping : ℚ
  total : ℚ
  itemCount : Int
deriving DecidableEq

/-- The `getTotals` derivation of `src/contexts/CartContext.tsx`
(the `getCartTotals` action computes the same values): subtotal and
item count by reduction over the line items, free shipping from 50,
flat fee 5.90 below. -/
def getTotals (items : List CartItem) : CartTotals :=
  let subtotal := items.foldl (fun sum item => sum + item.price * (item.quantity : ℚ)) 0
  let shipping : ℚ := if subtotal ≥ 50 then 0 else 59/10
  { subtotal := subtotal
    shipping := shipping
    total := subtotal + shipping
    itemCount := items.foldl (fun sum item => sum + item.quantity) 0 }

/-- Quantity stored for a product id, through the same lookup the code
uses (`find?` on the line items); `none` when the id is absent. -/
def quantityOf (productId : String) (cart : List CartItem) : Option Int :=
  (cart.find? (fun item => item.id == productId)).map (fun item => item.quantity)

/-! ## Filter state (`src/stores/filterStore.ts`) -/

/-- The sort keys (`SortOption`). -/
inductive SortOption where
  | default
  | priceAsc
  | priceDesc
  | nameAsc
  | nameDesc
deriving DecidableEq

/-- Default price slider bounds (`DEFAULT_PRICE_MIN` / `DEFAULT_PRICE_MAX`). -/
def defaultPriceMin : ℚ := 0

/-- Default upper price bound. -/
def defaultPriceMax : ℚ := 100

/-- The filter criteria (`FilterState`). -/
structure FilterState where
  categories : List String
  plants : List String
  priceRange : ℚ × ℚ
  inStockOnly : Bool
  sortBy : SortOption
  searchQuery : String

/-- The initial (and reset) filter state of `filterStore`. -/
def defaultFilterState : FilterState :=
  { categories := []
    plants := []
    priceRange := (defaultPriceMin, defaultPriceMax)
    inStockOnly := false
    sortBy := SortOption.default
    searchQuery := "" }

/-- The `hasActiveFilters` derivation of `src/stores/filterStore.ts`. -/
def hasActiveFilters (state : FilterState) : Bool :=
  decide (0 < state.categories.length) ||
  decide (0 < state.plants.length) ||
  decide (state.priceRange.1 > defaultPriceMin) ||
  decide (state.priceRange.2 < defaultPriceMax) ||
  state.inStockOnly ||
  decide (0 < state.searchQuery.length)

/-! ## Filter/sort pipeline (`src/components/FilteredProductGrid.tsx`) -/

/-- A catalog product (`Product` of `src/types/index.ts`). -/
structure Product where
  id : String
  name : String
  category : String
  price : ℚ
  description : String
  ingredients : List String
  plants : Option (List String)
  image : String
  inStock : Bool
  featured : Option Bool
  badge : Option String

/-- Truthiness of the optional `featured` flag (`b.featured ? 1 : 0`). -/
def featuredRank (p : Product) : Int :=
  if p.featured = some true then 1 else 0

/-- Code-point comparison standing in for `localeCompare('fr')`. -/
def charListCmp : List Char → List Char → Ordering
  | [], [] => Ordering.eq
  | [], _ :: _ => Ordering.lt
  | _ :: _, [] => Ordering.gt
  | a :: as, b :: bs =>
    if a < b then Ordering.lt else if b < a then Ordering.gt else charListCmp as bs

/-- String comparison used for the name sort keys. -/
def localeCompareFr (s t : String) : Ordering := charListCmp s.data t.data

/-- The comparator of each `sort` call in `FilteredProductGrid`, as the
"a stays before b" predicate of a stable sort (comparator value at most
zero). -/
def leOf : SortOption → Product → Product → Bool
  | SortOption.priceAsc, a, b => decide (a.price ≤ b.price)
  | SortOption.priceDesc, a, b => decide (b.price ≤ a.price)
  | SortOption.nameAsc, a, b => !(localeCompareFr a.name b.name == Ordering.gt)
  | SortOption.nameDesc, a, b => !(localeCompareFr b.name a.name == Ordering.gt)
  | SortOption.default, a, b => decide (featuredRank b - featuredRank a ≤ 0)

/-- The free-text match of the pipeline: the lowercased query occurs in
the lowercased name, description, or some ingredient tag. -/
def matchesQuery (searchQuery : String) (p : Product) : Bool :=
  let query := jsToLower searchQuery
  containsSubstr (jsToLower p.name) query ||
  containsSubstr (jsToLower p.description) query ||
  p.ingredients.any (fun i => containsSubstr (jsToLower i) query)

/-- The plant-tag intersection: the product has some selected plant tag
(products without a plant list never match). -/
def plantMatch (selected : List String) (p : Product) : Bool :=
  match p.plants with
  | some ps => ps.any (fun plant => selected.contains plant)
  | none => false

/-- The `filteredProducts` pipeline of `FilteredProductGrid.tsx`:
free-text filter (when the trimmed query is nonempty), category filter
(when categories are selected), plant filter (when plants are selected),
inclusive price bounds, stock filter (when in-stock-only), then a stable
sort by the selected key. -/
def filteredProducts (f : FilterState) (products : List Product) : List Product :=
  let r1 := if jsTrimL f.searchQuery.data ≠ [] then
      products.filter (matchesQuery f.searchQuery)
    else products
  let r2 := if 0 < f.categories.length then
      r1.filter (fun p => f.categories.contains p.category)
    else r1
  let r3 := if 0 < f.plants.length then r2.filter (plantMatch f.plants) else r2
  let r4 := r3.filter (fun p => decide (f.priceRange.1 ≤ p.price) && decide (p.price ≤ f.priceRange.2))
  let r5 := if f.inStockOnly then r4.filter (fun p => p.inStock) else r4
  r5.mergeSort (leOf f.sortBy)

/-! ## Shared helper lemmas -/

theorem foldl_add_map {α M : Type _} [AddCommMonoid M] (f : α → M) :
    ∀ (l : List α) (a : M), l.foldl (fun s x => s + f x) a = a + (l.map f).sum := by
  intro l
  induction l with
  | nil => intro a; simp
  | cons x xs ih =>
    intro a
    simp only [List.foldl_cons, List.map_cons, List.sum_cons]
    rw [ih, add_assoc]

/-- Clamping a value into `[lo, hi]`, following the wording of the spec
("clamp each bound into [absoluteMin, absoluteMax]"). -/
def clampToBounds (lo hi x : ℚ) : ℚ := Max.max lo (Min.min x hi)

theorem code_clamp_max_eq (amin amax x : ℚ) (h : amin ≤ amax) :
    Min.min amax (Max.max x amin) = clampToBounds amin amax x := by
  simp only [clampToBounds, min_def, max_def]
  split_ifs <;> linarith

theorem forall₂_map_self {α β : Type _} {R : β → α → Prop} (f : α → β) :
    ∀ l : List α, (∀ a ∈ l, R (f a) a) → List.Forall₂ R (l.map f) l := by
  intro l
  induction l with
  | nil => intro _; exact List.Forall₂.nil
  | cons x xs ih =>
    intro h
    exact List.Forall₂.cons (h x (List.mem_cons_self x xs))
      (ih fun a ha => h a (List.mem_cons_of_mem _ ha))

theorem find?_cons_pos {α : Type _} (p : α → Bool) (a : α) (l : List α) (h : p a = true) :
    List.find? p (a :: l) = some a := by
  simp [List.find?, h]

theorem find?_cons_neg {α : Type _} (p : α → Bool) (a : α) (l : List α) (h : p a = false) :
    List.find? p (a :: l) = List.find? p l := by
  simp [List.find?, h]

theorem quantityOf_map_inc (pid : String) :
    ∀ (cart : List CartItem) (k : Int), quantityOf pid cart = some k →
      quantityOf pid (cart.map (fun item =>
        if item.id == pid then { item with quantity := item.quantity + 1 } else item))
        = some (k + 1) := by
  intro cart
  induction cart with
  | nil => intro k h; simp [quantityOf] at h
  | cons it rest ih =>
    intro k h
    by_cases hid : (it.id == pid) = true
    · simp only [quantityOf, List.map_cons] at h ⊢
      rw [find?_cons_pos (fun item => item.id == pid) it rest hid] at h
      simp only [Option.map_some', Option.some.injEq] at h
      rw [if_pos hid]
      simp [List.find?, hid, h]
    · have hid2 : (it.id == pid) = false := by simpa using hid
      simp only [quantityOf, List.map_cons] at h ⊢
      rw [find?_cons_neg (fun item => item.id == pid) it rest hid2] at h
      rw [if_neg hid, find?_cons_neg (fun item => item.id == pid) it _ hid2]
      exact ih k h

theorem quantityOf_addToCart_some (p : AddToCartProduct) (cart : List CartItem) (k : Int)
    (h : quantityOf p.id cart = some k) :
    quantityOf p.id (addToCart p cart) = some (k + 1) := by
  obtain ⟨ex, hex, -⟩ : ∃ ex, cart.find? (fun it => it.id == p.id) = some ex ∧ ex.quantity = k := by
    simpa only [quantityOf, Option.map_eq_some'] using h
  simp only [addToCart, hex]
  exact quantityOf_map_inc p.id cart k h

theorem quantityOf_addToCart_none (p : AddToCartProduct) (cart : List CartItem)
    (h : quantityOf p.id cart = none) :
    quantityOf p.id (addToCart p cart) = some 1 := by
  have hfind : cart.find? (fun it => it.id == p.id) = none := by
    simpa only [quantityOf, Option.map_eq_none'] using h
  simp only [addToCart, hfind]
  simp [quantityOf, List.find?_append, hfind, List.find?]

theorem quantityOf_addToCart_iterate (p : AddToCartProduct) :
    ∀ (n : Nat) (cart : List CartItem) (k : Int), quantityOf p.id cart = some k →
      quantityOf p.id ((addToCart p)^[n] cart) = some (k + n) := by
  intro n
  induction n with
  | zero => intro cart k h; simpa using h
  | succ m ih =>
    intro cart k h
    rw [Function.iterate_succ_apply]
    rw [ih (addToCart p cart) (k + 1) (quantityOf_addToCart_some p cart k h)]
    congr 1
    push_cast
    ring

/-! ## Claim theorems -/

/-- C1 counterexample.  The claim states that `addItem` caps the
increment at the configured maximum of 99; in the code no add path caps:
adding to a line item already at quantity 99 yields quantity 100. -/
theorem addToCart_cap_counterexample :
    addToCart ⟨"savon", "Savon", 10, "img"⟩ [⟨"savon", "Savon", 10, "img", 99⟩]
      = [⟨"savon", "Savon", 10, "img", 100⟩] ∧
    ¬ (∀ it ∈ addToCart ⟨"savon", "Savon", 10, "img"⟩ [⟨"savon", "Savon", 10, "img", 99⟩],
        it.quantity ≤ maxQuantity) := by
  constructor
  · rfl
  · decide

/-- C1 (amended).  `addItem` with no existing line item for the product
id appends a new line item with quantity 1 whose name, price and image
are snapshotted from the product; with an existing line item it
increments that item's quantity by exactly 1 with no maximum cap; and n
`addItem` calls on the same product id starting from a cart without
that id yield quantity exactly n (not min(n, 99)). -/
theorem addToCart_amended :
    (∀ (p : AddToCartProduct) (cart : List CartItem),
       quantityOf p.id cart = none →
       addToCart p cart
         = cart ++ [{ id := p.id, name := p.name, price := p.price, image := p.image, quantity := 1 }]) ∧
    (∀ (p : AddToCartProduct) (cart : List CartItem) (k : Int),
       quantityOf p.id cart = some k →
       quantityOf p.id (addToCart p cart) = some (k + 1)) ∧
    (∀ (p : AddToCartProduct) (cart : List CartItem) (n : Nat), 1 ≤ n →
       quantityOf p.id cart = none →
       quantityOf p.id ((addToCart p)^[n] cart) = some (n : Int)) := by
  refine ⟨?_, quantityOf_addToCart_some, ?_⟩
  · intro p cart h
    have hfind : cart.find? (fun it => it.id == p.id) = none := by
      simpa only [quantityOf, Option.map_eq_none'] using h
    simp [addToCart, hfind]
  · intro p cart n h1 h
    cases n with
    | zero => exact absurd h1 (by decide)
    | succ m =>
      rw [Function.iterate_succ_apply]
      rw [quantityOf_addToCart_iterate p m (addToCart p cart) 1 (quantityOf_addToCart_none p cart h)]
      congr 1
      push_cast
      ring

/-- Witness for C1 (amended): 100 adds of the same product to the empty
cart leave quantity 100, past the claimed cap of 99. -/
theorem addToCart_amended_witness :
    quantityOf "savon" ((addToCart ⟨"savon", "Savon", 10, "img"⟩)^[100] []) = some 100 := by
  have h := addToCart_amended.2.2 ⟨"savon", "Savon", 10, "img"⟩ [] 100 (by decide) rfl
  exact_mod_cast h

/-- C5.  For every cart state, `updateQuantity(productId, quantity)`
with quantity <= 0 removes the line item for productId so the product
is absent afterwards; with quantity > 0 it sets the matching line
item's quantity to exactly the given value; and when productId has no
line item in the cart it is a silent no-op. -/
theorem updateQuantity_spec :
    ∀ (productId : String) (quantity : Int) (items : List CartItem),
      (quantity ≤ 0 → ∀ it ∈ updateQuantity productId quantity items, it.id ≠ productId) ∧
      (0 < quantity → ∀ it ∈ updateQuantity productId quantity items,
          it.id = productId → it.quantity = quantity) ∧
      (0 < quantity → (∀ it ∈ items, it.id ≠ productId) →
          updateQuantity productId quantity items = items) := by
  intro productId quantity items
  refine ⟨?_, ?_, ?_⟩
  · intro hq it hit
    rw [updateQuantity, if_pos hq] at hit
    have h2 := (List.mem_filter.mp hit).2
    simpa using h2
  · intro hq it hit
    rw [updateQuantity, if_neg (not_le.mpr hq)] at hit
    obtain ⟨x, hx, hmap⟩ := List.mem_map.mp hit
    by_cases hid : (x.id == productId) = true
    · rw [if_pos hid] at hmap
      intro _
      rw [← hmap]
    · rw [if_neg hid] at hmap
      intro hit2
      rw [← hmap] at hit2
      exact absurd (beq_iff_eq.mpr hit2) hid
  · intro hq habs
    rw [updateQuantity, if_neg (not_le.mpr hq)]
    rw [List.map_congr_left (fun a ha => ?_), List.map_id]
    have : (a.id == productId) = false := beq_eq_false_iff_ne.mpr (habs a ha)
    simp [this]

/-- Witness for C5: updating to quantity 5 on a concrete one-line cart. -/
theorem updateQuantity_spec_witness :
    (0 : Int) < 5 ∧
    (∀ it ∈ updateQuantity "savon" 5 [(⟨"savon", "Savon", 10, "img", 2⟩ : CartItem)],
       it.id = "savon" → it.quantity = 5) := by
  exact ⟨by decide, (updateQuantity_spec "savon" 5 [⟨"savon", "Savon", 10, "img", 2⟩]).2.1 (by decide)⟩

/-- C10.  Cart operations preserve the relative order of the line items
they do not remove and touch no other fields: `addToCart` appends a
brand-new line item at the end and, when incrementing an existing one,
leaves its position and its id, name, price and image unchanged;
`updateQuantity` with a positive quantity changes only the quantity
field of the matching line item; `removeFromCart` leaves the remaining
line items identical and in their original order. -/
theorem cart_ops_frame :
    (∀ (p : AddToCartProduct) (cart : List CartItem),
       cart.find? (fun it => it.id == p.id) = none →
       addToCart p cart
         = cart ++ [{ id := p.id, name := p.name, price := p.price, image := p.image, quantity := 1 }]) ∧
    (∀ (p : AddToCartProduct) (cart : List CartItem) (ex : CartItem),
       cart.find? (fun it => it.id == p.id) = some ex →
       List.Forall₂ (fun a b =>
         a.id = b.id ∧ a.name = b.name ∧ a.price = b.price ∧ a.image = b.image ∧
         (b.id ≠ p.id → a = b) ∧ (b.id = p.id → a.quantity = b.quantity + 1))
         (addToCart p cart) cart) ∧
    (∀ (productId : String) (q : Int) (cart : List CartItem), 0 < q →
       List.Forall₂ (fun a b =>
         a.id = b.id ∧ a.name = b.name ∧ a.price = b.price ∧ a.image = b.image ∧
         (b.id ≠ productId → a = b) ∧ (b.id = productId → a.quantity = q))
         (updateQuantity productId q cart) cart) ∧
    (∀ (productId : String) (cart : List CartItem),
       (removeFromCart productId cart).Sublist cart ∧
       (∀ it ∈ cart, it.id ≠ productId → it ∈ removeFromCart productId cart) ∧
       (∀ it ∈ removeFromCart productId cart, it.id ≠ productId)) := by
  refine ⟨?_, ?_, ?_, ?_⟩
  · intro p cart h
    simp [addToCart, h]
  · intro p cart ex h
    simp only [addToCart, h]
    apply forall₂_map_self
    intro a _
    by_cases hid : (a.id == p.id) = true
    · rw [if_pos hid]
      exact ⟨rfl, rfl, rfl, rfl,
        fun hne => absurd (beq_iff_eq.mp hid) hne, fun _ => rfl⟩
    · rw [if_neg hid]
      exact ⟨rfl, rfl, rfl, rfl, fun _ => rfl,
        fun he => absurd (beq_iff_eq.mpr he) hid⟩
  · intro productId q cart hq
    rw [updateQuantity, if_neg (not_le.mpr hq)]
    apply forall₂_map_self
    intro a _
    by_cases hid : (a.id == productId) = true
    · rw [if_pos hid]
      exact ⟨rfl, rfl, rfl, rfl,
        fun hne => absurd (beq_iff_eq.mp hid) hne, fun _ => rfl⟩
    · rw [if_neg hid]
      exact ⟨rfl, rfl, rfl, rfl, fun _ => rfl,
        fun he => absurd (beq_iff_eq.mpr he) hid⟩
  · intro productId cart
    refine ⟨List.filter_sublist cart, ?_, ?_⟩
    · intro it hit hne
      exact List.mem_filter.mpr ⟨hit, by simpa using hne⟩
    · intro it hit
      have := (List.mem_filter.mp hit).2
      simpa using this

/-- Witness for C10: adding a fresh product appends it at the end. -/
theorem cart_ops_frame_witness :
    addToCart ⟨"savon", "Savon", 10, "img"⟩ [⟨"creme", "Creme", 20, "i2", 1⟩]
      = [⟨"creme", "Creme", 20, "i2", 1⟩, ⟨"savon", "Savon", 10, "img", 1⟩] := by
  exact cart_ops_frame.1 ⟨"savon", "Savon", 10, "img"⟩ [⟨"creme", "Creme", 20, "i2", 1⟩] (by decide)

theorem head?_dropWhile_false {α : Type _} (p : α → Bool) (l : List α) (c : α)
    (h : (l.dropWhile p).head? = some c) : p c = false := by
  have h2 := List.head?_dropWhile_not p l
  rw [h] at h2
  exact h2

theorem dropWhile_eq_self_of_head? {α : Type _} (p : α → Bool) (l : List α)
    (h : ∀ c, l.head? = some c → p c = false) : l.dropWhile p = l := by
  cases l with
  | nil => rfl
  | cons c rest =>
    have h2 := h c rfl
    simp [List.dropWhile_cons, h2]

theorem jsTrimL_sublist (l : List Char) : (jsTrimL l).Sublist l := by
  have h2 : ((l.dropWhile jsWs).reverse.dropWhile jsWs).Sublist (l.dropWhile jsWs).reverse :=
    List.dropWhile_sublist jsWs
  have h3 := h2.reverse
  rw [List.reverse_reverse] at h3
  exact h3.trans (List.dropWhile_sublist jsWs)

theorem jsTrimL_idem (l : List Char) : jsTrimL (jsTrimL l) = jsTrimL l := by
  cases hBe : (l.dropWhile jsWs).reverse.dropWhile jsWs with
  | nil =>
    have hTr : jsTrimL l = ((l.dropWhile jsWs).reverse.dropWhile jsWs).reverse := rfl
    rw [hTr, hBe]
    rfl
  | cons b bs =>
    have hAne : l.dropWhile jsWs ≠ [] := by
      intro h0
      rw [h0] at hBe
      exact absurd hBe.symm (List.cons_ne_nil b bs)
    obtain ⟨a0, ha0⟩ : ∃ a0, (l.dropWhile jsWs).head? = some a0 := by
      cases hA2 : l.dropWhile jsWs with
      | nil => exact absurd hA2 hAne
      | cons x xs => exact ⟨x, rfl⟩
    have ha0ws : jsWs a0 = false := head?_dropWhile_false jsWs l a0 ha0
    have hheadb : jsWs b = false := by
      refine head?_dropWhile_false jsWs (l.dropWhile jsWs).reverse b ?_
      rw [hBe]
      rfl
    have hgl : ((l.dropWhile jsWs).reverse.dropWhile jsWs).getLast? = some a0 := by
      have hsplit : (l.dropWhile jsWs).reverse
          = (l.dropWhile jsWs).reverse.takeWhile jsWs
            ++ (l.dropWhile jsWs).reverse.dropWhile jsWs :=
        (List.takeWhile_append_dropWhile jsWs _).symm
      have hrev : (l.dropWhile jsWs).reverse.getLast? = some a0 := by
        rw [List.getLast?_reverse]
        exact ha0
      rw [hsplit, List.getLast?_append] at hrev
      cases hx : ((l.dropWhile jsWs).reverse.dropWhile jsWs).getLast? with
      | some x =>
        rw [hx] at hrev
        simpa using hrev
      | none =>
        rw [List.getLast?_eq_none_iff] at hx
        exact absurd (hx.symm.trans hBe) (by intro hcc; exact List.cons_ne_nil b bs hcc.symm)
    show jsTrimL (((l.dropWhile jsWs).reverse.dropWhile jsWs).reverse)
        = ((l.dropWhile jsWs).reverse.dropWhile jsWs).reverse
    rw [jsTrimL]
    rw [dropWhile_eq_self_of_head? jsWs ((l.dropWhile jsWs).reverse.dropWhile jsWs).reverse
      (by
        intro c hc
        rw [List.head?_reverse, hgl] at hc
        cases hc
        exact ha0ws)]
    rw [List.reverse_reverse]
    rw [dropWhile_eq_self_of_head? jsWs ((l.dropWhile jsWs).reverse.dropWhile jsWs)
      (by
        intro c hc
        rw [hBe] at hc
        cases hc
        exact hheadb)]

theorem removeTagsFuel_no_lt : ∀ (fuel : Nat) (l : List Char),
    (∀ c ∈ l, (c == '<') = false) → removeTagsFuel fuel l = l := by
  intro fuel
  induction fuel with
  | zero => intro l _; rfl
  | succ n ih =>
    intro l h
    cases l with
    | nil => rfl
    | cons c rest =>
      have hc := h c (List.mem_cons_self c rest)
      simp only [removeTagsFuel, hc]
      rw [ih rest (fun d hd => h d (List.mem_cons_of_mem _ hd))]
      simp

theorem removeDangerous_no_danger (l : List Char) :
    ∀ c ∈ removeDangerous l, dangerousChar c = false := by
  intro c hc
  have h2 := (List.mem_filter.mp hc).2
  simpa using h2

theorem no_lt_of_no_danger (c : Char) (h : dangerousChar c = false) : (c == '<') = false := by
  cases hc : c == '<' with
  | false => rfl
  | true =>
    have he : c = '<' := beq_iff_eq.mp hc
    rw [he] at h
    exact absurd h (by decide)

theorem mem_of_mem_filterIf {α : Type _} {c : Prop} [Decidable c] {q : α → Bool} {l : List α}
    {p : α} (h : p ∈ if c then l.filter q else l) : p ∈ l ∧ (¬ c ∨ q p = true) := by
  split at h
  · exact ⟨(List.mem_filter.mp h).1, Or.inr (List.mem_filter.mp h).2⟩
  · next hc => exact ⟨h, Or.inl hc⟩

/-- A query of 101 characters whose truncation at 100 exposes trailing
whitespace: "a", 99 spaces, "b". -/
def overlongQuery : String := "a" ++ ⟨List.replicate 99 ' '⟩ ++ "b"

/-- C7 counterexample.  `sanitizeSearchQuery` trims before truncating,
so truncation can cut just before a non-whitespace tail and leave
trailing spaces that a second pass removes: on "a" followed by 99
spaces and "b", the first pass returns "a" plus 99 spaces (100
characters) and the second pass returns "a". -/
theorem sanitizeSearchQuery_idem_counterexample :
    sanitizeSearchQuery (some (sanitizeSearchQuery (some overlongQuery)))
      ≠ sanitizeSearchQuery (some overlongQuery) := by
  decide

/-- C7 (amended).  The result of `sanitizeSearchQuery` never exceeds the
configured maximum length of 100 characters and non-string input yields
the empty string; a second application is the identity whenever the
trimmed intermediate fits within the maximum (truncation not
triggered) — full idempotence fails, as truncation can expose trailing
whitespace for the second pass to trim. -/
theorem sanitizeSearchQuery_amended :
    (∀ q : Option String, (sanitizeSearchQuery q).length ≤ maxSearchLength) ∧
    sanitizeSearchQuery none = "" ∧
    (∀ s : String,
      (jsTrimL (removeDangerous (removeTags s.data))).length ≤ maxSearchLength →
      sanitizeSearchQuery (some (sanitizeSearchQuery (some s))) = sanitizeSearchQuery (some s)) := by
  refine ⟨?_, rfl, ?_⟩
  · intro q
    cases q with
    | none => decide
    | some s =>
      show ((jsTrimL (removeDangerous (removeTags s.data))).take maxSearchLength).length
          ≤ maxSearchLength
      rw [List.length_take]
      exact min_le_left _ _
  · intro s h
    have hyND : ∀ c ∈ jsTrimL (removeDangerous (removeTags s.data)), dangerousChar c = false :=
      fun c hc => removeDangerous_no_danger _ c ((jsTrimL_sublist _).subset hc)
    have htake : (jsTrimL (removeDangerous (removeTags s.data))).take maxSearchLength
        = jsTrimL (removeDangerous (removeTags s.data)) := List.take_of_length_le h
    have h1 : sanitizeSearchQuery (some s)
        = ⟨jsTrimL (removeDangerous (removeTags s.data))⟩ := by
      show (⟨(jsTrimL (removeDangerous (removeTags s.data))).take maxSearchLength⟩ : String)
          = ⟨jsTrimL (removeDangerous (removeTags s.data))⟩
      rw [htake]
    have hu_tags : removeTags (jsTrimL (removeDangerous (removeTags s.data)))
        = jsTrimL (removeDangerous (removeTags s.data)) :=
      removeTagsFuel_no_lt _ _ (fun c hc => no_lt_of_no_danger c (hyND c hc))
    have hu_dang : removeDangerous (jsTrimL (removeDangerous (removeTags s.data)))
        = jsTrimL (removeDangerous (removeTags s.data)) :=
      List.filter_eq_self.mpr (fun a ha => by simp [hyND a ha])
    have hlist : (jsTrimL (removeDangerous (removeTags
          (jsTrimL (removeDangerous (removeTags s.data)))))).take maxSearchLength
        = jsTrimL (removeDangerous (removeTags s.data)) := by
      rw [hu_tags, hu_dang, jsTrimL_idem, htake]
    rw [h1]
    show (⟨(jsTrimL (removeDangerous (removeTags
        (jsTrimL (removeDangerous (removeTags s.data)))))).take maxSearchLength⟩ : String)
      = ⟨jsTrimL (removeDangerous (removeTags s.data))⟩
    rw [hlist]

/-- Witness for C7 (amended): a short query whose second sanitization
pass is the identity. -/
theorem sanitizeSearchQuery_amended_witness :
    (jsTrimL (removeDangerous (removeTags ("  creme mains  ").data))).length ≤ maxSearchLength ∧
    sanitizeSearchQuery (some (sanitizeSearchQuery (some "  creme mains  ")))
      = sanitizeSearchQuery (some "  creme mains  ") :=
  ⟨by decide, sanitizeSearchQuery_amended.2.2 "  creme mains  " (by decide)⟩

/-- C4.  For every catalog and filter criteria, the filter/sort pipeline
returns a subset of the input catalog, every element of which satisfies
the five predicates: free-text match (trimmed query empty or a
case-insensitive substring of name, description or an ingredient tag),
category membership (vacuous when no categories selected), plant-tag
intersection (vacuous when no plants selected), inclusive price bounds,
and the stock flag when in-stock-only is set; re-invocation on the same
input yields the identical output list. -/
theorem filteredProducts_spec :
    ∀ (f : FilterState) (products : List Product),
      (∀ p ∈ filteredProducts f products,
        p ∈ products ∧
        (jsTrimL f.searchQuery.data = [] ∨ matchesQuery f.searchQuery p = true) ∧
        (f.categories = [] ∨ p.category ∈ f.categories) ∧
        (f.plants = [] ∨ plantMatch f.plants p = true) ∧
        (f.priceRange.1 ≤ p.price ∧ p.price ≤ f.priceRange.2) ∧
        (f.inStockOnly = false ∨ p.inStock = true)) ∧
      filteredProducts f products = filteredProducts f products := by
  intro f products
  refine ⟨?_, rfl⟩
  intro p hp
  simp only [filteredProducts] at hp
  rw [List.mem_mergeSort] at hp
  obtain ⟨h4, hstock⟩ := mem_of_mem_filterIf hp
  obtain ⟨h3, hpb⟩ := List.mem_filter.mp h4
  obtain ⟨h2, hplant⟩ := mem_of_mem_filterIf h3
  obtain ⟨h1, hcat⟩ := mem_of_mem_filterIf h2
  obtain ⟨h0, hsearch⟩ := mem_of_mem_filterIf h1
  refine ⟨h0, ?_, ?_, ?_, ?_, ?_⟩
  · exact hsearch.imp (fun h => not_not.mp h) id
  · refine hcat.imp ?_ ?_
    · intro h
      exact List.length_eq_zero.mp (Nat.le_zero.mp (not_lt.mp h))
    · intro h
      simpa using h
  · refine hplant.imp ?_ id
    intro h
    exact List.length_eq_zero.mp (Nat.le_zero.mp (not_lt.mp h))
  · have := (Bool.and_eq_true _ _).mp hpb
    exact ⟨of_decide_eq_true this.1, of_decide_eq_true this.2⟩
  · exact hstock.imp (fun h => Bool.not_eq_true _ ▸ (by simpa using h)) id

/-- An in-stock catalog product used to instantiate the pipeline theorem. -/
def demoProduct : Product :=
  { id := "savon", name := "Savon", category := "soins", price := 30,
    description := "Savon artisanal", ingredients := ["olive"], plants := some ["lavande"],
    image := "/savon.jpg", inStock := true, featured := none, badge := none }

/-- Witness for C4: on the default criteria a one-product catalog passes
the pipeline unchanged and the theorem yields its price-bounds facts. -/
theorem filteredProducts_spec_witness :
    demoProduct ∈ [demoProduct] ∧
    defaultFilterState.priceRange.1 ≤ demoProduct.price ∧
    demoProduct.price ≤ defaultFilterState.priceRange.2 := by
  have heq : filteredProducts defaultFilterState [demoProduct] = [demoProduct] := by
    simp [filteredProducts, defaultFilterState, jsTrimL, demoProduct, defaultPriceMin,
      defaultPriceMax, List.filter, show ((0:ℚ) ≤ 30) from by norm_num,
      show ((30:ℚ) ≤ 100) from by norm_num]
  have hmem : demoProduct ∈ filteredProducts defaultFilterState [demoProduct] := by
    rw [heq]
    exact List.mem_singleton.mpr rfl
  have h := (filteredProducts_spec defaultFilterState [demoProduct]).1 demoProduct hmem
  exact ⟨h.1, h.2.2.2.2.1⟩

/-- Product identifier of a loaded JSON line item, when present. -/
def jsonIdOf : JsonValue → Option String
  | JsonValue.obj fields =>
    match lookupField fields "id" with
    | some (JsonValue.str s) => some s
    | _ => none
  | _ => none

/-- A well-formed persisted line item used to exhibit that validation
does not deduplicate product identifiers. -/
def dupItem : JsonValue :=
  JsonValue.obj [("id", JsonValue.str "savon"), ("name", JsonValue.str "Savon"),
    ("price", JsonValue.num (JSNum.fin 10)), ("image", JsonValue.str "/img.jpg"),
    ("quantity", JsonValue.num (JSNum.fin 2))]

/-- The cart invariant that holds of the operations: at most one line
item per product identifier and every quantity at least 1. -/
def CartInv (items : List CartItem) : Prop :=
  List.Pairwise (fun a b => a.id ≠ b.id) items ∧ ∀ it ∈ items, 1 ≤ it.quantity

/-- C6 counterexample.  The claimed invariant adds a quantity bound of
99 and covers loading from storage: both parts fail.  Starting from a
cart satisfying the claimed invariant (one line item at quantity 99),
`addItem` produces quantity 100; and loading a stored array holding the
same valid line item twice yields a cart with two line items for one
product identifier. -/
theorem cart_invariant_counterexample :
    (List.Pairwise (fun a b : CartItem => a.id ≠ b.id)
        [(⟨"savon", "Savon", 10, "img", 99⟩ : CartItem)] ∧
      (∀ it ∈ [(⟨"savon", "Savon", 10, "img", 99⟩ : CartItem)],
        1 ≤ it.quantity ∧ it.quantity ≤ maxQuantity)) ∧
    ¬ (∀ it ∈ addToCart ⟨"savon", "Savon", 10, "img"⟩ [⟨"savon", "Savon", 10, "img", 99⟩],
        it.quantity ≤ maxQuantity) ∧
    parseAndValidateCart (Blob.val (JsonValue.arr [dupItem, dupItem])) = [dupItem, dupItem] ∧
    jsonIdOf dupItem = some "savon" ∧
    ¬ List.Pairwise (fun a b => jsonIdOf a ≠ jsonIdOf b)
        (parseAndValidateCart (Blob.val (JsonValue.arr [dupItem, dupItem]))) := by
  refine ⟨⟨by decide, by decide⟩, by decide, rfl, rfl, ?_⟩
  intro h
  rw [show parseAndValidateCart (Blob.val (JsonValue.arr [dupItem, dupItem]))
      = [dupItem, dupItem] from rfl] at h
  have h2 := (List.pairwise_cons.mp h).1 dupItem (List.mem_singleton.mpr rfl)
  exact h2 rfl

theorem loadFromStorage_fst : ∀ b : Blob, (loadFromStorage b).1 = parseAndValidateCart b := by
  intro b
  cases b with
  | absent => rfl
  | malformed => rfl
  | val j =>
    cases j <;> first
      | rfl
      | (simp only [loadFromStorage]; split <;> rfl)

/-- C6 (amended).  The four cart operations preserve the invariant "at
most one line item per product identifier and every quantity >= 1",
but not the bound of 99 (no operation caps quantities); loading from
storage yields items that each individually pass `isValidCartItem`
(integer quantity between 1 and 99, valid id, finite non-negative
price), though deduplication of identifiers is not performed. -/
theorem cart_invariant_amended :
    (∀ (p : AddToCartProduct) (cart : List CartItem), CartInv cart → CartInv (addToCart p cart)) ∧
    (∀ (productId : String) (cart : List CartItem), CartInv cart →
      CartInv (removeFromCart productId cart)) ∧
    (∀ (productId : String) (q : Int) (cart : List CartItem), CartInv cart →
      CartInv (updateQuantity productId q cart)) ∧
    CartInv clearCart ∧
    (∀ b : Blob, ∀ j ∈ (loadFromStorage b).1, isValidCartItem j = true) := by
  have hid : ∀ (pid : String) (q : Int) (x : CartItem),
      ((if x.id == pid then { x with quantity := q } else x) : CartItem).id = x.id := by
    intro pid q x
    split <;> rfl
  have hid1 : ∀ (pid : String) (x : CartItem),
      ((if x.id == pid then { x with quantity := x.quantity + 1 } else x) : CartItem).id = x.id := by
    intro pid x
    split <;> rfl
  refine ⟨?_, ?_, ?_, ?_, ?_⟩
  · intro p cart h
    cases hfind : cart.find? (fun it => it.id == p.id) with
    | some ex =>
      simp only [addToCart, hfind]
      constructor
      · rw [List.pairwise_map]
        refine h.1.imp ?_
        intro a b hab
        rw [hid1 p.id a, hid1 p.id b]
        exact hab
      · intro it hit
        obtain ⟨x, hx, hmap⟩ := List.mem_map.mp hit
        have h1x := h.2 x hx
        by_cases hb : (x.id == p.id) = true
        · rw [if_pos hb] at hmap
          rw [← hmap]
          show 1 ≤ x.quantity + 1
          omega
        · rw [if_neg hb] at hmap
          rw [← hmap]
          exact h1x
    | none =>
      simp only [addToCart, hfind]
      constructor
      · rw [List.pairwise_append]
        refine ⟨h.1, List.pairwise_singleton _ _, ?_⟩
        intro a ha b hb
        rw [List.mem_singleton.mp hb]
        have := List.find?_eq_none.mp hfind a ha
        simpa using this
      · intro it hit
        rcases List.mem_append.mp hit with h1 | h1
        · exact h.2 it h1
        · rw [List.mem_singleton.mp h1]
  · intro productId cart h
    exact ⟨List.Pairwise.sublist (List.filter_sublist cart) h.1,
      fun it hit => h.2 it (List.mem_filter.mp hit).1⟩
  · intro productId q cart h
    by_cases hq : q ≤ 0
    · rw [updateQuantity, if_pos hq]
      exact ⟨List.Pairwise.sublist (List.filter_sublist cart) h.1,
        fun it hit => h.2 it (List.mem_filter.mp hit).1⟩
    · rw [updateQuantity, if_neg hq]
      constructor
      · rw [List.pairwise_map]
        refine h.1.imp ?_
        intro a b hab
        rw [hid productId q a, hid productId q b]
        exact hab
      · intro it hit
        obtain ⟨x, hx, hmap⟩ := List.mem_map.mp hit
        by_cases hb : (x.id == productId) = true
        · rw [if_pos hb] at hmap
          rw [← hmap]
          show 1 ≤ q
          omega
        · rw [if_neg hb] at hmap
          rw [← hmap]
          exact h.2 x hx
  · exact ⟨List.Pairwise.nil, by simp [clearCart]⟩
  · intro b j hj
    rw [loadFromStorage_fst] at hj
    cases b with
    | absent => simp [parseAndValidateCart] at hj
    | malformed => simp [parseAndValidateCart] at hj
    | val jv =>
      cases jv with
      | arr xs => exact (List.mem_filter.mp hj).2
      | null => simp [parseAndValidateCart] at hj
      | bool bb => simp [parseAndValidateCart] at hj
      | num nn => simp [parseAndValidateCart] at hj
      | str ss => simp [parseAndValidateCart] at hj
      | obj ff => simp [parseAndValidateCart] at hj

/-- Witness for C6 (amended): the invariant after adding to the empty cart. -/
theorem cart_invariant_amended_witness :
    CartInv (addToCart ⟨"savon", "Savon", 10, "img"⟩ []) :=
  cart_invariant_amended.1 ⟨"savon", "Savon", 10, "img"⟩ [] ⟨List.Pairwise.nil, by simp⟩

/-- A persisted line item passing validation, for concrete load tests. -/
def validItemJ : JsonValue :=
  JsonValue.obj [("id", JsonValue.str "creme-mains"), ("name", JsonValue.str "Creme mains"),
    ("price", JsonValue.num (JSNum.fin 19)), ("image", JsonValue.str "/creme.jpg"),
    ("quantity", JsonValue.num (JSNum.fin 1))]

/-- A persisted line item failing validation through a negative price. -/
def negPriceItemJ : JsonValue :=
  JsonValue.obj [("id", JsonValue.str "savon-noir"), ("name", JsonValue.str "Savon noir"),
    ("price", JsonValue.num (JSNum.fin (-5))), ("image", JsonValue.str "/savon.jpg"),
    ("quantity", JsonValue.num (JSNum.fin 2))]

/-- C2.  When the persisted cart blob is a JSON array in which some
elements fail CartLineItem validation, loading the cart yields exactly
the valid elements in their original order, the cleaned array is
immediately re-persisted to storage, and a subsequent load of the
re-persisted blob returns the same cart without re-persisting, so the
invalid elements do not resurface. -/
theorem load_drops_invalid_and_repersists :
    ∀ xs : List JsonValue, (∃ x ∈ xs, isValidCartItem x = false) →
      loadFromStorage (Blob.val (JsonValue.arr xs))
        = (xs.filter isValidCartItem,
           Blob.val (JsonValue.arr (xs.filter isValidCartItem))) ∧
      loadFromStorage (Blob.val (JsonValue.arr (xs.filter isValidCartItem)))
        = (xs.filter isValidCartItem,
           Blob.val (JsonValue.arr (xs.filter isValidCartItem))) := by
  intro xs hex
  obtain ⟨x, hx, hxv⟩ := hex
  have hne : (xs.filter isValidCartItem).length ≠ xs.length := by
    intro he
    have h2 := List.filter_length_eq_length.mp he x hx
    simp [hxv] at h2
  constructor
  · simp only [loadFromStorage, parseAndValidateCart]
    rw [if_neg hne]
  · have hfil : (xs.filter isValidCartItem).filter isValidCartItem
        = xs.filter isValidCartItem :=
      List.filter_eq_self.mpr (fun a ha => (List.mem_filter.mp ha).2)
    simp only [loadFromStorage, parseAndValidateCart]
    rw [hfil, if_pos rfl]

/-- Witness for C2: a two-element stored array with one negative-price
element loads as the single valid element and re-persists the cleaned
array. -/
theorem load_drops_invalid_and_repersists_witness :
    loadFromStorage (Blob.val (JsonValue.arr [validItemJ, negPriceItemJ]))
      = ([validItemJ], Blob.val (JsonValue.arr [validItemJ])) := by
  have hex : ∃ x ∈ [validItemJ, negPriceItemJ], isValidCartItem x = false :=
    ⟨negPriceItemJ, List.mem_cons_of_mem _ (List.mem_singleton.mpr rfl), rfl⟩
  have h := (load_drops_invalid_and_repersists [validItemJ, negPriceItemJ] hex).1
  rw [show ([validItemJ, negPriceItemJ].filter isValidCartItem) = [validItemJ] from by rfl] at h
  exact h

/-- C3.  For every cart state, `getTotals()` returns subtotal equal to
the sum over line items of unit price times quantity, itemCount equal
to the sum of quantities, shipping equal to 0 if and only if
subtotal >= 50 and equal to the fixed fee 5.90 otherwise, and total
equal to subtotal + shipping. -/
theorem getTotals_spec :
    ∀ items : List CartItem,
      (getTotals items).subtotal = (items.map (fun it => it.price * (it.quantity : ℚ))).sum ∧
      (getTotals items).itemCount = (items.map (fun it => it.quantity)).sum ∧
      ((getTotals items).shipping = 0 ↔ 50 ≤ (getTotals items).subtotal) ∧
      (¬ 50 ≤ (getTotals items).subtotal → (getTotals items).shipping = 59/10) ∧
      (getTotals items).total = (getTotals items).subtotal + (getTotals items).shipping := by
  intro items
  have hsub : (getTotals items).subtotal
      = (items.map (fun it => it.price * (it.quantity : ℚ))).sum := by
    simp only [getTotals]
    rw [foldl_add_map]
    simp
  refine ⟨hsub, ?_, ?_, ?_, ?_⟩
  · simp only [getTotals]
    rw [foldl_add_map]
    simp
  · simp only [getTotals]
    split_ifs with h
    · simpa using h
    · constructor
      · intro h0
        norm_num at h0
      · intro h1
        exact absurd h1 h
  · intro h
    simp only [getTotals] at h ⊢
    split_ifs at h ⊢ with h2
    · exact absurd h2 h
    · rfl
  · simp only [getTotals]

/-- Witness for C3: the empty cart evaluated through the theorem. -/
theorem getTotals_spec_witness :
    ¬ 50 ≤ (getTotals []).subtotal ∧ (getTotals []).shipping = 59/10 := by
  have h := (getTotals_spec []).2.2.2.1
  have hn : ¬ 50 ≤ (getTotals []).subtotal := by decide
  exact ⟨hn, h hn⟩

/-- C8.  For all numbers min, max and all absoluteMin <= absoluteMax,
`validatePriceRange` clamps each bound into [absoluteMin, absoluteMax]
and, if the clamped min exceeds the clamped max, collapses the result
to the single-point range [clamped min, clamped min] instead of raising
an error; `validatePriceRange(-5, 150, 0, 100)` yields [0, 100] and
`validatePriceRange(80, 20, 0, 100)` yields [80, 80]. -/
theorem validatePriceRange_spec :
    (∀ (min max : JSNum) (absoluteMin absoluteMax : ℚ), absoluteMin ≤ absoluteMax →
      validatePriceRange min max absoluteMin absoluteMax =
        (if clampToBounds absoluteMin absoluteMax (safeNum max absoluteMax)
              < clampToBounds absoluteMin absoluteMax (safeNum min absoluteMin) then
          (clampToBounds absoluteMin absoluteMax (safeNum min absoluteMin),
           clampToBounds absoluteMin absoluteMax (safeNum min absoluteMin))
        else
          (clampToBounds absoluteMin absoluteMax (safeNum min absoluteMin),
           clampToBounds absoluteMin absoluteMax (safeNum max absoluteMax))) ∧
      absoluteMin ≤ (validatePriceRange min max absoluteMin absoluteMax).1 ∧
      (validatePriceRange min max absoluteMin absoluteMax).1 ≤ absoluteMax ∧
      absoluteMin ≤ (validatePriceRange min max absoluteMin absoluteMax).2 ∧
      (validatePriceRange min max absoluteMin absoluteMax).2 ≤ absoluteMax ∧
      (validatePriceRange min max absoluteMin absoluteMax).1
        ≤ (validatePriceRange min max absoluteMin absoluteMax).2) ∧
    validatePriceRange (JSNum.fin (-5)) (JSNum.fin 150) 0 100 = (0, 100) ∧
    validatePriceRange (JSNum.fin 80) (JSNum.fin 20) 0 100 = (80, 80) := by
  refine ⟨?_, by decide, by decide⟩
  intro mn mx amin amax h
  have hminle : ∀ z : ℚ, amin ≤ clampToBounds amin amax z := fun z => le_max_left _ _
  have hmaxle : ∀ z : ℚ, clampToBounds amin amax z ≤ amax := fun z =>
    max_le h (min_le_right _ _)
  have key : validatePriceRange mn mx amin amax =
      (if clampToBounds amin amax (safeNum mx amax) < clampToBounds amin amax (safeNum mn amin)
        then (clampToBounds amin amax (safeNum mn amin), clampToBounds amin amax (safeNum mn amin))
        else (clampToBounds amin amax (safeNum mn amin), clampToBounds amin amax (safeNum mx amax))) := by
    simp only [validatePriceRange]
    rw [code_clamp_max_eq _ _ _ h]
    rfl
  refine ⟨key, ?_⟩
  rw [key]
  split_ifs with hc
  · exact ⟨hminle _, hmaxle _, hminle _, hmaxle _, le_refl _⟩
  · exact ⟨hminle _, hmaxle _, hminle _, hmaxle _, not_lt.mp hc⟩

/-- Witness for C8: the general bound statement applied at min = NaN. -/
theorem validatePriceRange_spec_witness :
    (0 : ℚ) ≤ (validatePriceRange JSNum.nan (JSNum.fin 50) 0 100).1 := by
  exact (validatePriceRange_spec.1 JSNum.nan (JSNum.fin 50) 0 100 (by norm_num)).2.1

/-- C9.  For every filter state, `hasActiveFilters()` returns true if
and only if some criterion differs from the default state: non-empty
category set, non-empty plant set, price range narrowed from the
default bounds, in-stock-only set, or non-empty search text; the sort
key is not considered a filter. -/
theorem hasActiveFilters_spec :
    (∀ st : FilterState,
      hasActiveFilters st = true ↔
        st.categories ≠ [] ∨ st.plants ≠ [] ∨ defaultPriceMin < st.priceRange.1 ∨
        st.priceRange.2 < defaultPriceMax ∨ st.inStockOnly = true ∨ st.searchQuery ≠ "") ∧
    hasActiveFilters defaultFilterState = false ∧
    (∀ s : SortOption, hasActiveFilters { defaultFilterState with sortBy := s } = false) := by
  refine ⟨?_, by decide, ?_⟩
  · intro st
    have hq : ∀ s : String, (0 < s.length ↔ s ≠ "") := by
      intro s
      cases s with
      | mk data =>
        rw [String.length, List.length_pos]
        constructor
        · intro h h2
          apply h
          rw [show data = String.data ⟨data⟩ from rfl, h2]
        · intro h h2
          apply h
          rw [show (⟨data⟩ : String) = ⟨[]⟩ from by rw [h2]]
    simp only [hasActiveFilters, Bool.or_eq_true, decide_eq_true_eq, List.length_pos, gt_iff_lt,
      hq]
    tauto
  · intro s
    cases s <;> decide

end Beaucharme
